import Mathlib

/-!
Verification of the dynamic batch scheduler
(`src/dynamic_batch_scheduler.cc`, namespace `triton::core`).

The scheduler is shallowly embedded: the mutable members of
`DynamicBatchScheduler` guarded by `mu_` become a state record, and each
member function that the claims mention becomes a pure Lean function from
(configuration, inputs, state) to (result, state).  Machine integers
(`size_t`, `uint64_t`) are modelled as `Nat`; the one subtraction in the
source that can genuinely wrap around zero (`next_preferred_batch_size_ -=
payload_batch_size_`) and its siblings are modelled with `wsub64`, which
agrees with 64-bit unsigned subtraction on operands below `2 ^ 64`.

The `PriorityQueue`, `Payload` and `RequiredEqualInputs` classes are not
part of this repository's sources (only their call sites are), so they are
modelled from the spec, as noted on each definition.
-/

namespace DynBatch

/-- Unsigned 64-bit subtraction.  For `a b < 2 ^ 64` this is exactly
`uint64_t`/`size_t` subtraction `a - b`, including wrap-around when
`b > a`. -/
def wsub64 (a b : Nat) : Nat :=
  if b ≤ a then a - b else a + (2 ^ 64 - b)

/-- Modelled from the spec: an enqueued `InferenceRequest` as the scheduler
sees it.  `batchSize` is the declared batch size (`BatchSize()`, may be 0),
`enqueueNs` is the queue-start timestamp, `timeoutNs` is the per-request
deadline in nanoseconds (0 = none), `shape` abstracts the tensor shapes
relevant to `RequiredEqualInputs` (two requests are shape-compatible iff the
codes are equal), `shapeInitOk` abstracts whether
`RequiredEqualInputs::Initialize` succeeds on this request, and
`customInclude` is the answer of the custom-batching include hook. -/
structure Request where
  batchSize : Nat
  enqueueNs : Nat
  timeoutNs : Nat
  shape : Nat
  shapeInitOk : Bool
  customInclude : Bool
  deriving Repr, DecidableEq

/-- `std::max(1U, request->BatchSize())`, the effective batch size used at
`Enqueue` (line 248) and in the `GetDynamicBatch` scan (line 476). -/
def effSize (r : Request) : Nat := max 1 r.batchSize

/-- Sum of the effective batch sizes of a list of requests. -/
def sumEff (l : List Request) : Nat := (l.map effSize).sum

/-- Modelled from the spec: the `PriorityQueue`, represented by the
cursor-order (priority-major, FIFO within a level) flattened sequence of its
requests, plus the cursor.  `scanned` is the cursor position and equals
`PendingBatchCount()`; `mark` is the saved cursor of `MarkCursor`;
`valid` is `IsCursorValid()`. -/
structure Queue where
  reqs : List Request
  scanned : Nat
  mark : Nat
  valid : Bool
  deriving Repr, DecidableEq

/-- Modelled from the spec: `OldestEnqueueTime()` — the enqueue timestamp of
the oldest pending (front) request, 0 when the queue is empty. -/
def oldestEnqueueTime (q : Queue) : Nat :=
  match q.reqs with
  | [] => 0
  | r :: _ => r.enqueueNs

/-- Modelled from the spec: `ClosestTimeout()` — the earliest non-zero
per-request deadline, 0 when no request carries a deadline. -/
def closestTimeout (q : Queue) : Nat :=
  q.reqs.foldr
    (fun r acc =>
      if r.timeoutNs = 0 then acc
      else if acc = 0 then r.timeoutNs else min r.timeoutNs acc) 0

/-- Immutable configuration of the scheduler (the `const` members set by the
constructor).  `preferred` holds `preferred_batch_sizes_` in ascending order,
matching `std::set<int32_t>` iteration order.  `delayNs` is
`pending_batch_delay_ns_`.  `enforceEqualShapeTensors` abstracts the names in
`enforce_equal_shape_tensors_` as numeric ids. -/
structure Config where
  dynamicBatchingEnabled : Bool
  maxBatchSize : Nat
  preferred : List Nat
  delayNs : Nat
  enforceEqualShapeTensors : List Nat
  hasOptionalInput : Bool
  preserveOrdering : Bool
  responseCacheEnabled : Bool
  customBatchEnabled : Bool
  deriving Repr, DecidableEq

/-- `max_preferred_batch_size_`, computed by the constructor as the maximum
of the preferred sizes (0 when the set is empty). -/
def maxPreferredOf (c : Config) : Nat := c.preferred.foldl max 0

/-- `check_input` (line 472): inputs must be examined when equal-shape
tensors are enforced or the model has an optional input. -/
def checkInput (c : Config) : Bool :=
  !c.enforceEqualShapeTensors.isEmpty || c.hasOptionalInput

/-- The constructor clamp `(size_t)std::max(1, max_batch_size)`
(line 71). -/
def mkMaxBatchSize (m : Int) : Nat := (max 1 m).toNat

/-- The mutable scheduler state guarded by `mu_`, together with the parts of
`curr_payload_` that `GetDynamicBatch` reads and writes.
`payloadSaturated` is the scheduler's own `payload_saturated_` flag;
`payloadMarkedSaturated` is the payload's flag set by
`Payload::MarkSaturated` (modelled from the spec); `payloadShape` is the
payload's `RequiredEqualInputs` descriptor, abstracted to the shape code of
the request that initialized it (modelled from the spec). -/
structure SchedState where
  queue : Queue
  pendingBatchSize : Nat
  queuedBatchSize : Nat
  nextPreferredBatchSize : Nat
  payloadBatchSize : Nat
  payloadSaturated : Bool
  payloadMarkedSaturated : Bool
  payloadShape : Option Nat
  deriving Repr, DecidableEq

/-- Modelled from the spec: `RequiredEqualInputs::HasEqualInputs` — the
request is compatible with the descriptor iff their shape codes agree. -/
def hasEqualInputs (desc : Option Nat) (r : Request) : Bool :=
  desc == some r.shape

/-- A request expired at time `now` (its deadline is set and already past);
`ApplyPolicyAtCursor` rejects such requests at the cursor (modelled from the
spec).  The strict comparison matches the source treating
`now_ns <= ClosestTimeout()` as not-yet-expired (line 610). -/
def expiredAt (now : Nat) (r : Request) : Bool :=
  r.timeoutNs != 0 && decide (r.timeoutNs < now)

/-- Accumulator of the `GetDynamicBatch` scan loop (lines 475-540):
`pending` is `pending_batch_size_`, `count` is `queue_.PendingBatchCount()`
(equals the cursor position), `best` is the local
`best_preferred_batch_size`, `mark` the queue's saved cursor,
`schedSaturated` the scheduler's `payload_saturated_`,
`payloadMarkedSaturated` the payload's own saturation flag, `shape` the
payload's shape descriptor, `sendNow` the local `send_now`, and
`rejectedSize` the batch size total of requests rejected by
`ApplyPolicyAtCursor` during this call. -/
structure ScanAcc where
  pending : Nat
  count : Nat
  best : Nat
  mark : Nat
  schedSaturated : Bool
  payloadMarkedSaturated : Bool
  shape : Option Nat
  sendNow : Bool
  rejectedSize : Nat
  deriving Repr, DecidableEq

/-- The cursor walk of `GetDynamicBatch` (lines 468-540).  `done` is the
part of the queue already behind the cursor, `rest` the part at and after
it.  `ApplyPolicyAtCursor` (called before the loop and after every
`AdvanceCursor`) is inlined: an expired request at the cursor is rejected
(removed and its size accumulated) before the request at the cursor is
examined, which is equivalent because the queue applies its policy exactly
when the cursor reaches a request.  Returns the final accumulator and the
queue contents that remain (scanned part followed by the unscanned rest). -/
def scanLoop (c : Config) (pBS now : Nat) :
    List Request → List Request → ScanAcc → ScanAcc × List Request
  | done, [], acc => (acc, done)
  | done, r :: rs, acc =>
    if expiredAt now r then
      -- ApplyPolicyAtCursor rejects the expired request at the cursor
      -- (lines 468 and 533); `queued_batch_size_` is debited at the end.
      scanLoop c pBS now done rs
        { acc with rejectedSize := acc.rejectedSize + effSize r }
    else
      let b := effSize r
      if pBS + acc.count = 0 then
        -- this request starts a new batch (line 480)
        if checkInput c && !r.shapeInitOk then
          -- RequiredEqualInputs::Initialize failed (line 483): send_now
          ({ acc with sendNow := true }, done ++ r :: rs)
        else
          let acc1 :=
            if checkInput c then { acc with shape := some r.shape } else acc
          -- custom batching include hook (line 521)
          if c.customBatchEnabled && !r.customInclude then
            ({ acc1 with payloadMarkedSaturated := true, sendNow := true },
              done ++ r :: rs)
          else
            let pending1 := acc1.pending + b
            let count1 := acc1.count + 1
            let acc2 := { acc1 with pending := pending1, count := count1 }
            let acc3 :=
              if (pending1 + pBS) ∈ c.preferred then
                { acc2 with best := pending1, mark := count1 }
              else acc2
            scanLoop c pBS now (done ++ [r]) rs acc3
      else
        -- continuing the pending batch (line 492)
        let acc1 :=
          if pBS + acc.pending + b > maxPreferredOf c ∧ acc.best = 0 then
            -- record the batch that fits in the preferred sizes (line 497)
            { acc with best := acc.pending, mark := acc.count,
                       schedSaturated := true }
          else acc
        if pBS + acc1.pending + b > c.maxBatchSize then
          -- the hard cap (line 504): send_now
          ({ acc1 with sendNow := true }, done ++ r :: rs)
        else if checkInput c && !hasEqualInputs acc1.shape r then
          -- shape mismatch (line 512): payload marked saturated, send_now
          ({ acc1 with payloadMarkedSaturated := true, sendNow := true },
            done ++ r :: rs)
        else if c.customBatchEnabled && !r.customInclude then
          -- custom batching include hook (line 521)
          ({ acc1 with payloadMarkedSaturated := true, sendNow := true },
            done ++ r :: rs)
        else
          let pending1 := acc1.pending + b
          let count1 := acc1.count + 1
          let acc2 := { acc1 with pending := pending1, count := count1 }
          let acc3 :=
            if (pending1 + pBS) ∈ c.preferred then
              -- a preferred size is hit exactly (line 535)
              { acc2 with best := pending1, mark := count1 }
            else acc2
          scanLoop c pBS now (done ++ [r]) rs acc3

/-- The cursor reset of `GetDynamicBatch` (lines 459-466): when the cursor
is invalid, `ResetCursor` and zero `pending_batch_size_`; the custom-batch
user pointer is torn down and re-initialized there, which touches no
modelled state. -/
def scanStart (s : SchedState) : SchedState :=
  if s.queue.valid then s
  else
    { s with queue := { s.queue with scanned := 0, valid := true },
             pendingBatchSize := 0 }

/-- The scan of `GetDynamicBatch` from a state whose cursor is valid:
policy application and the scan loop over the part of the queue at and
after the cursor.  Returns the final scan accumulator together with the
updated scheduler state. -/
def scanRun (c : Config) (now : Nat) (s0 : SchedState) : ScanAcc × SchedState :=
  let don := s0.queue.reqs.take s0.queue.scanned
  let rest := s0.queue.reqs.drop s0.queue.scanned
  let acc0 : ScanAcc :=
    { pending := s0.pendingBatchSize, count := s0.queue.scanned, best := 0,
      mark := s0.queue.mark, schedSaturated := s0.payloadSaturated,
      payloadMarkedSaturated := s0.payloadMarkedSaturated,
      shape := s0.payloadShape, sendNow := false, rejectedSize := 0 }
  let res := scanLoop c s0.payloadBatchSize now don rest acc0
  (res.1,
    { s0 with
        queue := { reqs := res.2, scanned := res.1.count, mark := res.1.mark,
                   valid := true },
        pendingBatchSize := res.1.pending,
        queuedBatchSize := wsub64 s0.queuedBatchSize res.1.rejectedSize,
        payloadSaturated := res.1.schedSaturated,
        payloadMarkedSaturated := res.1.payloadMarkedSaturated,
        payloadShape := res.1.shape })

/-- The first half of `GetDynamicBatch` (lines 455-540): cursor reset when
invalid (line 459), policy application, and the scan loop. -/
def scanPhase (c : Config) (now : Nat) (s : SchedState) : ScanAcc × SchedState :=
  scanRun c now (scanStart s)

/-- The `upper_bound` call on `preferred_batch_sizes_` (line 581): the first
element (in the set's ascending order) strictly greater than `x`. -/
def upperBound (l : List Nat) (x : Nat) : Option Nat :=
  l.find? (fun p => decide (x < p))

/-- The queue delay of the oldest pending request (line 547). -/
def delayOf (now : Nat) (q : Queue) : Nat := wsub64 now (oldestEnqueueTime q)

/-- `delay_is_exceeded` (line 548). -/
def delayIsExceeded (c : Config) (now : Nat) (q : Queue) : Prop :=
  c.delayNs ≠ 0 ∧ c.delayNs ≤ delayOf now q

instance (c : Config) (now : Nat) (q : Queue) :
    Decidable (delayIsExceeded c now q) := by
  unfold delayIsExceeded; infer_instance

/-- The second half of `GetDynamicBatch` (lines 542-626): the decision made
after the scan.  `best` and `sendNow` come from the scan accumulator; `s` is
the post-scan state.  Returns the wait amount in microseconds and the final
state. -/
def decidePhase (c : Config) (now : Nat) (best : Nat) (sendNow : Bool)
    (s : SchedState) : Nat × SchedState :=
  let delayNs := delayOf now s.queue
  if best ≠ 0 ∧ ¬delayIsExceeded c now s.queue then
    -- a preferred batch size fits and the delay is not exceeded (line 553):
    -- rewind to the mark and execute it now
    (0, { s with
            payloadSaturated :=
              if c.delayNs = 0 then true else s.payloadSaturated,
            pendingBatchSize := best,
            queue := { s.queue with scanned := s.queue.mark } })
  else if s.queue.scanned = 0 then
    -- nothing in the pending batch: all queued requests expired (line 564)
    (0, s)
  else if sendNow = true ∨ maxPreferredOf c ≤ s.payloadBatchSize + s.pendingBatchSize then
    -- the batch cannot grow any larger (line 570)
    (0, { s with payloadSaturated := true })
  else if delayIsExceeded c now s.queue ∨ c.delayNs = 0 then
    (0, s)
  else
    -- next preferred batch size hint for Enqueue (lines 580-591)
    let np :=
      match upperBound c.preferred (s.pendingBatchSize + s.payloadBatchSize) with
      | some v => v
      | none =>
        match c.preferred with
        | [] => 0
        | p :: _ => p
    let np := if np ≠ 0 then wsub64 np s.payloadBatchSize else np
    let s1 := { s with nextPreferredBatchSize := np }
    if ¬s1.payloadSaturated ∧ s1.payloadBatchSize ≠ 0 ∧
        s1.payloadBatchSize ∉ c.preferred then
      -- a growable non-preferred payload is in flight: start it (line 598)
      (0, s1)
    else
      -- wait out the remaining delay, clamped by the closest per-request
      -- timeout (lines 604-626)
      let waitNs := wsub64 c.delayNs delayNs
      let ct := closestTimeout s1.queue
      let waitNs :=
        if ct ≠ 0 then
          if now ≤ ct then min (wsub64 ct now) waitNs else 1000
        else waitNs
      (waitNs / 1000, s1)

/-- `DynamicBatchScheduler::GetDynamicBatch` (lines 444-627) as a pure
function of the configuration, the current monotonic time, and the
scheduler state.  Returns the wait amount in microseconds (0 = seal and
dispatch now) and the updated state. -/
def getDynamicBatch (c : Config) (now : Nat) (s : SchedState) :
    Nat × SchedState :=
  let res := scanPhase c now s
  decidePhase c now res.1.best res.1.sendNow res.2

/-- The value stored into `next_preferred_batch_size_` on the wait path
(lines 580-591), named for use in lemmas about that path. -/
def nextPreferredValue (c : Config) (s : SchedState) : Nat :=
  let np :=
    match upperBound c.preferred (s.pendingBatchSize + s.payloadBatchSize) with
    | some v => v
    | none =>
      match c.preferred with
      | [] => 0
      | p :: _ => p
  if np ≠ 0 then wsub64 np s.payloadBatchSize else np

/-- The wait amount in microseconds computed on the wait path
(lines 604-626), named for use in lemmas about that path. -/
def waitValue (c : Config) (now : Nat) (s : SchedState) : Nat :=
  let waitNs := wsub64 c.delayNs (delayOf now s.queue)
  let ct := closestTimeout s.queue
  let waitNs :=
    if ct ≠ 0 then
      if now ≤ ct then min (wsub64 ct now) waitNs else 1000
    else waitNs
  waitNs / 1000

/-- `Payload::State` (modelled from the spec). -/
inductive PayloadState where
  | uninitialized
  | ready
  | executing
  | released
  deriving Repr, DecidableEq

/-- `IsStaleState` (lines 50-56). -/
def isStaleState : PayloadState → Bool
  | .executing => true
  | .released => true
  | _ => false

/-- Externally observable actions of the `Enqueue` path, in program
order. -/
inductive Event where
  | delegateResponse
  | sendCachedResponse (finalFlag : Bool)
  | releaseRequest
  | enqueuePayloadDirect
  | pushQueue
  deriving Repr, DecidableEq

/-- Status of `Enqueue` as seen by the caller. -/
inductive EnqStatus where
  | ok
  | unavailable
  deriving Repr, DecidableEq

/-- Result of one `Enqueue` call. -/
structure EnqOutcome where
  status : EnqStatus
  events : List Event
  state : SchedState
  wakeBatcher : Bool
  deriving Repr, DecidableEq

/-- `DynamicBatchScheduler::Enqueue` (lines 175-278) as a pure step.
`cacheLookupResult` is the oracle answer of `CacheLookUp` (lines 703-740:
`some v` when `Lookup` succeeds with a non-null response, `none` on a miss
or on a hash/lookup failure, which is only logged); `slotAvailable` is the
rate-limiter's `PayloadSlotAvailable`; `payloadState` is the current
payload's state read under its exec mutex.  Timestamp capture, tracing,
and statistics do not touch modelled state.  The queue's per-level
overflow policy is elided: no claim depends on `Enqueue` failing with
`Overflow`, so the queue append always succeeds here (modelled from the
spec). -/
def enqueueStep (c : Config) (stopped : Bool) (cacheLookupResult : Option Nat)
    (slotAvailable : Bool) (payloadState : PayloadState)
    (s : SchedState) (r : Request) : EnqOutcome :=
  if stopped then
    { status := .unavailable, events := [], state := s, wakeBatcher := false }
  else
    let cached := if c.responseCacheEnabled then cacheLookupResult else none
    match cached with
    | some _ =>
      -- cache hit (lines 213-229): delegate only when ordering must be
      -- preserved, send the cached response with the FINAL flag, release
      { status := .ok,
        events :=
          (if c.preserveOrdering then [Event.delegateResponse] else []) ++
            [Event.sendCachedResponse true, Event.releaseRequest],
        state := s, wakeBatcher := false }
    | none =>
      if !c.dynamicBatchingEnabled then
        -- direct hand-off to the rate-limiter (lines 231-241)
        { status := .ok,
          events :=
            (if c.preserveOrdering || c.responseCacheEnabled then
              [Event.delegateResponse] else []) ++
              [Event.enqueuePayloadDirect],
          state := s, wakeBatcher := false }
      else
        -- queue the request and decide whether to wake the batcher
        -- (lines 243-275)
        let queued1 := s.queuedBatchSize + effSize r
        let s1 :=
          { s with queuedBatchSize := queued1,
                   queue := { s.queue with reqs := s.queue.reqs ++ [r] } }
        let wake := slotAvailable &&
          (if c.enforceEqualShapeTensors.isEmpty then
            s.payloadSaturated || isStaleState payloadState ||
              decide (s1.nextPreferredBatchSize ≤ queued1)
          else true)
        { status := .ok, events := [Event.pushQueue], state := s1,
          wakeBatcher := wake }

/-- `response_complete` as computed by the drain loop of
`FinalizeResponses` (lines 754-761): the variable is overwritten for every
pair of the slot, so after the loop it holds the FINAL bit of the slot's
last pair.  A response is the pair of an abstract response id and its
flags word. -/
def responseComplete (slot : List (Nat × Nat)) : Bool :=
  slot.foldl (fun _ p => (p.2 &&& 1) != 0) false

/-- The FINAL bit of a slot's last pair (`TRITONSERVER_RESPONSE_COMPLETE_FINAL`
is bit 0); false for an empty slot.  Used by the spec-facing drain
characterization. -/
def lastIsFinal (slot : List (Nat × Nat)) : Bool :=
  (slot.getLast?.map (fun p => (p.2 &&& 1) != 0)).getD false

/-- The drain loop of `DynamicBatchScheduler::FinalizeResponses`
(lines 749-767), run under the completion-queue mutex: while the front slot
is non-empty, move all its pairs to the local `responses` list; pop the
slot when its last pair carried the FINAL flag, otherwise clear its
contents in place (which ends the loop, since the front is then empty).
Returns the responses dispatched in order after the lock is released,
together with the remaining completion queue. -/
def finalizeResponses :
    List (List (Nat × Nat)) → List (Nat × Nat) × List (List (Nat × Nat))
  | [] => ([], [])
  | slot :: rest =>
    if slot.isEmpty then ([], slot :: rest)
    else if responseComplete slot then
      let r := finalizeResponses rest
      (slot ++ r.1, r.2)
    else (slot, [] :: rest)

/-- Result of the batch-extraction step of `BatcherThread`. -/
structure ExtractResult where
  payloadReqs : List Request
  payloadState : PayloadState
  queue : Queue
  queuedBatchSize : Nat
  pendingBatchSize : Nat
  dequeueFailed : Bool
  dispatched : Bool
  deriving Repr, DecidableEq

/-- The dequeue loop of `BatcherThread` (lines 377-397): pop `cnt` requests
from the queue front; `Dequeue` fails (`Internal`) exactly when the queue
is empty while requests are still owed.  Returns the dequeued requests in
order, the remaining queue, and whether a failure occurred (modelled from
the spec for the queue side). -/
def dequeueLoop : Nat → List Request → List Request × List Request × Bool
  | 0, q => ([], q, false)
  | _ + 1, [] => ([], [], true)
  | n + 1, r :: q =>
    let res := dequeueLoop n q
    (r :: res.1, res.2.1, res.2.2)

/-- The batch-extraction step of `BatcherThread` (lines 373-425) for the
case `wait_microseconds == 0` and `PendingBatchCount() != 0`: dequeue
`PendingBatchCount` requests into the current payload (each delegated when
ordering or the cache requires it — delegation keeps the request, so it is
not modelled separately).  On a dequeue failure the loop aborts: the error
is logged, the cursor is reset, both `queued_batch_size_` and
`pending_batch_size_` are zeroed, and no further request is extracted
(lines 385-395).  Afterwards — in both cases — an UNINITIALIZED payload is
promoted to READY (line 399), the accounting update of lines 403-404 runs,
and a READY payload is handed to the rate-limiter (lines 417-425).  A
successful `Dequeue` removes the entry under the cursor, so the cursor is
left invalidated on the normal path (modelled from the spec). -/
def extractBatch (payloadReqs0 : List Request) (payloadState0 : PayloadState)
    (s : SchedState) : ExtractResult :=
  let cnt := s.queue.scanned
  let res := dequeueLoop cnt s.queue.reqs
  let s1 :=
    if res.2.2 then
      -- mid-batch abort: ResetCursor, zero the counters (lines 392-394)
      { s with
          queue := { reqs := res.2.1, scanned := 0, mark := s.queue.mark,
                     valid := true },
          queuedBatchSize := 0, pendingBatchSize := 0 }
    else
      { s with
          queue := { reqs := res.2.1, scanned := 0, mark := s.queue.mark,
                     valid := false } }
  let st1 :=
    if payloadState0 = PayloadState.uninitialized then PayloadState.ready
    else payloadState0
  { payloadReqs := payloadReqs0 ++ res.1,
    payloadState := st1,
    queue := s1.queue,
    queuedBatchSize := wsub64 s1.queuedBatchSize s1.pendingBatchSize,
    pendingBatchSize := 0,
    dequeueFailed := res.2.2,
    dispatched := st1 = PayloadState.ready }

/-- Spec-facing characterization of the drain loop: slots are processed in
order while non-empty; a processed slot whose last pair carries the FINAL
flag is popped and draining continues; a processed slot whose last pair
does not carry it has its pairs collected, is cleared in place, and ends
the drain.  `k` counts the popped slots. -/
def drainSpec (q : List (List (Nat × Nat))) :
    List (Nat × Nat) × List (List (Nat × Nat)) :=
  let k := (q.takeWhile (fun s => !s.isEmpty && lastIsFinal s)).length
  if ((q.drop k).head?.getD []).isEmpty then ((q.take k).flatten, q.drop k)
  else ((q.take (k + 1)).flatten, [] :: (q.drop k).tail)

/-- A request with declared batch size `bs`, no deadline, shape code 0, and
hooks that accept it — used for concrete scenarios. -/
def mkReq (bs : Nat) : Request :=
  { batchSize := bs, enqueueNs := 0, timeoutNs := 0, shape := 0,
    shapeInitOk := true, customInclude := true }

/-- A configuration with dynamic batching on, `max_batch_size` 16,
preferred batch sizes 4 and 8, and a 10-second maximum queue delay —
the spec's running example. -/
def cfgPlain : Config :=
  { dynamicBatchingEnabled := true, maxBatchSize := 16, preferred := [4, 8],
    delayNs := 10000000000, enforceEqualShapeTensors := [],
    hasOptionalInput := false, preserveOrdering := false,
    responseCacheEnabled := false, customBatchEnabled := false }

/-- A configuration with `max_batch_size` 8, no preferred sizes, and
`max_queue_delay` 0 (no delay allowed). -/
def cfgTight : Config :=
  { dynamicBatchingEnabled := true, maxBatchSize := 8, preferred := [],
    delayNs := 0, enforceEqualShapeTensors := [], hasOptionalInput := false,
    preserveOrdering := false, responseCacheEnabled := false,
    customBatchEnabled := false }

/-- A freshly started scheduler state holding the given queue contents. -/
def stFresh (l : List Request) : SchedState :=
  { queue := { reqs := l, scanned := 0, mark := 0, valid := true },
    pendingBatchSize := 0, queuedBatchSize := sumEff l,
    nextPreferredBatchSize := 0, payloadBatchSize := 0,
    payloadSaturated := false, payloadMarkedSaturated := false,
    payloadShape := none }

/-- A state whose `PendingBatchCount` (2) exceeds the queue length (1):
the inconsistency that makes `Dequeue` fail mid-batch. -/
def stOverrun : SchedState :=
  { queue := { reqs := [mkReq 1], scanned := 2, mark := 0, valid := true },
    pendingBatchSize := 2, queuedBatchSize := 2,
    nextPreferredBatchSize := 0, payloadBatchSize := 0,
    payloadSaturated := false, payloadMarkedSaturated := false,
    payloadShape := none }

/-- `cfgPlain` with the response cache enabled and ordering preserved. -/
def cfgCache : Config :=
  { cfgPlain with responseCacheEnabled := true, preserveOrdering := true }

/-!  ## Basic lemmas  -/

theorem wsub64_of_le {a b : Nat} (h : b ≤ a) : wsub64 a b = a - b := by
  simp [wsub64, h]

theorem wsub64_zero (a : Nat) : wsub64 a 0 = a := by
  simp [wsub64]

theorem sumEff_append (l₁ l₂ : List Request) :
    sumEff (l₁ ++ l₂) = sumEff l₁ + sumEff l₂ := by
  simp [sumEff]

theorem foldl_overwrite {α β : Type} (g : α → β) :
    ∀ (t : List α) (b : β),
      t.foldl (fun _ p => g p) b = (t.getLast?.map g).getD b := by
  intro t
  induction t with
  | nil => intro b; rfl
  | cons a t ih =>
    intro b
    cases t with
    | nil => rfl
    | cons c u =>
      have h : (c :: u).getLast?.isSome := by simp [List.getLast?_isSome]
      obtain ⟨x, hx⟩ := Option.isSome_iff_exists.mp h
      simp [List.foldl_cons, ih, List.getLast?_cons_cons, hx]

/-- The `response_complete` variable, being overwritten for every pair of
the slot, ends up holding the FINAL bit of the slot's last pair. -/
theorem responseComplete_eq_lastIsFinal (slot : List (Nat × Nat)) :
    responseComplete slot = lastIsFinal slot :=
  foldl_overwrite _ slot false

/-!  ## C4: the FinalizeResponses drain  -/

/-- C4 counterexample: with a first slot whose last pair lacks the FINAL
flag followed by a non-empty second slot, the drain collects only the first
slot's pairs, not every pair of the maximal contiguous non-empty prefix
(which would include the second slot's pair), so the claim as stated is
false. -/
theorem c4_counterexample :
    (finalizeResponses [[(0, 0)], [(1, 1)]]).1 ≠
      (([[(0, 0)], [(1, 1)]] :
          List (List (Nat × Nat))).takeWhile (fun s => !s.isEmpty)).flatten := by
  decide

/-- C4 (amended): `FinalizeResponses` drains non-empty slots in order,
popping each slot whose last pair carries the FINAL flag; on reaching a
non-empty slot whose last pair lacks it, it still collects that slot's
pairs, clears the slot in place, and stops — so the collected prefix is the
maximal run of non-empty slots all of whose predecessors ended with FINAL,
and the collected responses are dispatched in that order. -/
theorem c4_finalize_drain (q : List (List (Nat × Nat))) :
    finalizeResponses q = drainSpec q := by
  induction q with
  | nil => rfl
  | cons slot rest ih =>
    by_cases he : slot.isEmpty
    · simp [finalizeResponses, drainSpec, he]
    · by_cases hc : responseComplete slot = true
      · have hlf : lastIsFinal slot = true := by
          rw [← responseComplete_eq_lastIsFinal]; exact hc
        simp [finalizeResponses, drainSpec, he, hc, hlf, ih]
        split <;> simp
      · have hlf : lastIsFinal slot = false := by
          rw [← responseComplete_eq_lastIsFinal]
          exact Bool.eq_false_iff.mpr (fun h => hc h)
        simp [finalizeResponses, drainSpec, he, hc, hlf]

/-!  ## C9: mid-batch abort on dequeue failure  -/

theorem dequeueLoop_overrun :
    ∀ (q : List Request) (n : Nat), q.length < n →
      dequeueLoop n q = (q, [], true) := by
  intro q
  induction q with
  | nil =>
    intro n hn
    cases n with
    | zero => omega
    | succ m => rfl
  | cons r t ih =>
    intro n hn
    cases n with
    | zero => omega
    | succ m =>
      simp only [dequeueLoop, ih m (by simpa using hn)]

/-- C9: when `PendingBatchCount` exceeds the queue length, `Dequeue` fails
mid-batch; the loop stops extracting (only the requests actually in the
queue were added), the cursor is reset, both `queued_batch_size_` and
`pending_batch_size_` are zeroed, and the partially filled payload is still
promoted to READY and dispatched to the rate-limiter. -/
theorem c9_dequeue_failure_abort (p0 : List Request) (s : SchedState)
    (hover : s.queue.reqs.length < s.queue.scanned) :
    extractBatch p0 PayloadState.uninitialized s =
      { payloadReqs := p0 ++ s.queue.reqs,
        payloadState := PayloadState.ready,
        queue := { reqs := [], scanned := 0, mark := s.queue.mark,
                   valid := true },
        queuedBatchSize := 0, pendingBatchSize := 0,
        dequeueFailed := true, dispatched := true } := by
  simp only [extractBatch, dequeueLoop_overrun _ _ hover]
  simp [wsub64]

theorem c9_dequeue_failure_abort_witness :
    stOverrun.queue.reqs.length < stOverrun.queue.scanned ∧
      extractBatch [] PayloadState.uninitialized stOverrun =
        { payloadReqs := [] ++ stOverrun.queue.reqs,
          payloadState := PayloadState.ready,
          queue := { reqs := [], scanned := 0, mark := stOverrun.queue.mark,
                     valid := true },
          queuedBatchSize := 0, pendingBatchSize := 0,
          dequeueFailed := true, dispatched := true } :=
  ⟨by decide, c9_dequeue_failure_abort [] stOverrun (by decide)⟩

/-!  ## C8: cache hits bypass the queue  -/

/-- C8: on `Enqueue` with the cache enabled and a lookup hit, the request
never reaches the priority queue: the state (and thus the queue) is
untouched, the response is delegated exactly when ordering must be
preserved, then the cached response is sent with the FINAL flag, the
request is released, and `Enqueue` returns success. -/
theorem c8_cache_hit_bypass (c : Config) (look : Option Nat) (v : Nat)
    (slot : Bool) (ps : PayloadState) (s : SchedState) (r : Request)
    (hcache : c.responseCacheEnabled = true) (hhit : look = some v) :
    enqueueStep c false look slot ps s r =
      { status := .ok,
        events :=
          (if c.preserveOrdering then [Event.delegateResponse] else []) ++
            [Event.sendCachedResponse true, Event.releaseRequest],
        state := s, wakeBatcher := false } := by
  simp [enqueueStep, hcache, hhit]

theorem c8_cache_hit_bypass_witness :
    cfgCache.responseCacheEnabled = true ∧
      enqueueStep cfgCache false (some 0) true PayloadState.uninitialized
          (stFresh []) (mkReq 1) =
        { status := .ok,
          events :=
            (if cfgCache.preserveOrdering then [Event.delegateResponse]
              else []) ++
              [Event.sendCachedResponse true, Event.releaseRequest],
          state := stFresh [], wakeBatcher := false } :=
  ⟨by decide,
    c8_cache_hit_bypass cfgCache (some 0) 0 true PayloadState.uninitialized
      (stFresh []) (mkReq 1) (by decide) rfl⟩

/-!  ## C6: the wake condition of Enqueue  -/

/-- C6: with dynamic batching enabled and no cache hit, the batcher is
woken iff a rate-limiter payload slot is available and — when
`enforce_equal_shape_tensors` is empty, the condition the source uses for
the extra gate — the payload is saturated, or stale, or the updated
`queued_batch_size` is at least `next_preferred_batch_size`; when the
enforce set is non-empty, slot availability alone decides the wake. -/
theorem c6_wake_condition (c : Config) (look : Option Nat) (slot : Bool)
    (ps : PayloadState) (s : SchedState) (r : Request)
    (hnc : (if c.responseCacheEnabled then look else none) = none)
    (hdyn : c.dynamicBatchingEnabled = true) :
    ((enqueueStep c false look slot ps s r).wakeBatcher = true ↔
      (slot = true ∧ (c.enforceEqualShapeTensors.isEmpty = true →
        (s.payloadSaturated = true ∨ isStaleState ps = true ∨
          s.nextPreferredBatchSize ≤ s.queuedBatchSize + effSize r)))) ∧
    (c.enforceEqualShapeTensors.isEmpty = false →
      (enqueueStep c false look slot ps s r).wakeBatcher = slot) := by
  by_cases hemp : c.enforceEqualShapeTensors.isEmpty = true
  · simp [enqueueStep, hnc, hdyn, hemp]
    tauto
  · simp [enqueueStep, hnc, hdyn, Bool.not_eq_true] at hemp ⊢
    simp [hemp]

theorem c6_wake_condition_witness :
    ((enqueueStep cfgPlain false none true PayloadState.uninitialized
        (stFresh []) (mkReq 1)).wakeBatcher = true ↔
      (true = true ∧ (cfgPlain.enforceEqualShapeTensors.isEmpty = true →
        ((stFresh []).payloadSaturated = true ∨
          isStaleState PayloadState.uninitialized = true ∨
          (stFresh []).nextPreferredBatchSize ≤
            (stFresh []).queuedBatchSize + effSize (mkReq 1))))) ∧
    (cfgPlain.enforceEqualShapeTensors.isEmpty = false →
      (enqueueStep cfgPlain false none true PayloadState.uninitialized
        (stFresh []) (mkReq 1)).wakeBatcher = true) :=
  c6_wake_condition cfgPlain none true PayloadState.uninitialized
    (stFresh []) (mkReq 1) rfl rfl

/-!  ## C10: effective batch sizes  -/

/-- C10: a declared batch size of 0 counts as 1 everywhere — `Enqueue` adds
`max 1 (declared size)` to `queued_batch_size_`, the `GetDynamicBatch` scan
counts a cursor request as `max 1 (declared size)`, and the constructor
clamps a configured `max_batch_size` below 1 up to 1, so the effective
maximum batch size is always at least 1. -/
theorem c10_effective_batch_size :
    (∀ m : Int, 1 ≤ mkMaxBatchSize m) ∧
    (∀ (s : SchedState) (r : Request) (slot : Bool) (ps : PayloadState),
      (enqueueStep cfgPlain false none slot ps s r).state.queuedBatchSize =
        s.queuedBatchSize + max 1 r.batchSize) ∧
    (∀ (bs now : Nat),
      (scanPhase cfgPlain now (stFresh [mkReq bs])).1.pending = max 1 bs) := by
  refine ⟨?_, ?_, ?_⟩
  · intro m
    simp [mkMaxBatchSize]
  · intro s r slot ps
    simp [enqueueStep, cfgPlain, effSize]
  · intro bs now
    simp only [scanPhase, scanRun, scanStart, stFresh, scanLoop, mkReq,
      cfgPlain, expiredAt, checkInput, effSize]
    norm_num
    split <;> rfl

/-!  ## C2: the best-preferred seal branch  -/

/-- C2: if the scan recorded a best preferred batch size and the oldest
request's queue delay has not exceeded `max_delay_ns`, `GetDynamicBatch`
sets `pending_batch_size_` to it, rewinds the cursor to the mark, also sets
`payload_saturated_` when `max_delay_ns` is 0, and returns 0. -/
theorem c2_best_preferred_seal (c : Config) (now : Nat) (s : SchedState)
    (hbest : (scanPhase c now s).1.best ≠ 0)
    (hdelay : ¬delayIsExceeded c now (scanPhase c now s).2.queue) :
    getDynamicBatch c now s =
      (0, { (scanPhase c now s).2 with
              payloadSaturated :=
                if c.delayNs = 0 then true
                else (scanPhase c now s).2.payloadSaturated,
              pendingBatchSize := (scanPhase c now s).1.best,
              queue := { (scanPhase c now s).2.queue with
                           scanned := (scanPhase c now s).2.queue.mark } }) := by
  unfold getDynamicBatch decidePhase
  simp [hbest, hdelay]

theorem c2_best_preferred_seal_witness :
    (scanPhase cfgPlain 1000 (stFresh (List.replicate 6 (mkReq 1)))).1.best ≠ 0 ∧
    ¬delayIsExceeded cfgPlain 1000
        (scanPhase cfgPlain 1000 (stFresh (List.replicate 6 (mkReq 1)))).2.queue ∧
    getDynamicBatch cfgPlain 1000 (stFresh (List.replicate 6 (mkReq 1))) =
      (0, { (scanPhase cfgPlain 1000 (stFresh (List.replicate 6 (mkReq 1)))).2 with
              payloadSaturated :=
                if cfgPlain.delayNs = 0 then true
                else (scanPhase cfgPlain 1000
                  (stFresh (List.replicate 6 (mkReq 1)))).2.payloadSaturated,
              pendingBatchSize :=
                (scanPhase cfgPlain 1000
                  (stFresh (List.replicate 6 (mkReq 1)))).1.best,
              queue := { (scanPhase cfgPlain 1000
                            (stFresh (List.replicate 6 (mkReq 1)))).2.queue with
                           scanned :=
                             (scanPhase cfgPlain 1000
                               (stFresh (List.replicate 6 (mkReq 1)))).2.queue.mark } }) :=
  ⟨by decide, by decide,
    c2_best_preferred_seal cfgPlain 1000 (stFresh (List.replicate 6 (mkReq 1)))
      (by decide) (by decide)⟩

/-!  ## Lemmas about the decide phase  -/

theorem delay_lt_of_not_exceeded {c : Config} {now : Nat} {q : Queue}
    (hde : ¬delayIsExceeded c now q) (hdz : c.delayNs ≠ 0) :
    delayOf now q < c.delayNs := by
  unfold delayIsExceeded at hde
  push_neg at hde
  exact hde hdz

theorem upperBound_some {l : List Nat} {x m : Nat} (hs : l.Sorted (· < ·))
    (h : upperBound l x = some m) :
    m ∈ l ∧ x < m ∧ ∀ p ∈ l, x < p → m ≤ p := by
  induction l with
  | nil => simp [upperBound] at h
  | cons a t ih =>
    rw [upperBound, List.find?_cons] at h
    by_cases hx : x < a
    · simp [hx] at h
      subst h
      refine ⟨List.mem_cons_self _ _, hx, ?_⟩
      intro p hp _
      rcases List.mem_cons.mp hp with rfl | hp
      · exact le_refl _
      · exact le_of_lt ((List.sorted_cons.mp hs).1 p hp)
    · simp [hx] at h
      obtain ⟨hm, hxm, hmin⟩ := ih (List.sorted_cons.mp hs).2 h
      refine ⟨List.mem_cons_of_mem _ hm, hxm, ?_⟩
      intro p hp hxp
      rcases List.mem_cons.mp hp with rfl | hp
      · exact absurd hxp hx
      · exact hmin p hp hxp

theorem upperBound_none {l : List Nat} {x : Nat} (h : upperBound l x = none) :
    ∀ p ∈ l, p ≤ x := by
  intro p hp
  have := List.find?_eq_none.mp h p hp
  simpa using this

theorem sorted_head_le {a : Nat} {t : List Nat} (hs : (a :: t).Sorted (· < ·)) :
    ∀ p ∈ a :: t, a ≤ p := by
  intro p hp
  rcases List.mem_cons.mp hp with rfl | hp
  · exact le_refl _
  · exact le_of_lt ((List.sorted_cons.mp hs).1 p hp)

/-!  ## C5: the wait amount  -/

/-- C5: when `GetDynamicBatch` decides to wait (no usable preferred hit, no
`send_now`, a non-empty pending batch below `max_preferred_batch_size`, the
delay neither exceeded nor disabled, and the grow-in-flight shortcut not
applying), the returned value is `max_delay_ns` minus the oldest pending
request's age, shrunk to the closest per-request timeout's remaining time
when that timeout is non-zero and not yet past, forced to 1000 ns when it
is already past, and finally divided by 1000 (microseconds). -/
theorem c5_wait_amount (c : Config) (now : Nat) (s : SchedState)
    (hbest : (scanPhase c now s).1.best = 0)
    (hsn : (scanPhase c now s).1.sendNow = false)
    (hcnt : (scanPhase c now s).2.queue.scanned ≠ 0)
    (hmp : (scanPhase c now s).2.payloadBatchSize +
        (scanPhase c now s).2.pendingBatchSize < maxPreferredOf c)
    (hde : ¬delayIsExceeded c now (scanPhase c now s).2.queue)
    (hdz : c.delayNs ≠ 0)
    (hshort : ¬(¬(scanPhase c now s).2.payloadSaturated = true ∧
        (scanPhase c now s).2.payloadBatchSize ≠ 0 ∧
        (scanPhase c now s).2.payloadBatchSize ∉ c.preferred))
    (hold : oldestEnqueueTime (scanPhase c now s).2.queue ≤ now) :
    (getDynamicBatch c now s).1 =
      (if closestTimeout (scanPhase c now s).2.queue ≠ 0 then
        if now ≤ closestTimeout (scanPhase c now s).2.queue then
          min (closestTimeout (scanPhase c now s).2.queue - now)
            (c.delayNs - (now - oldestEnqueueTime (scanPhase c now s).2.queue))
        else 1000
      else
        c.delayNs -
          (now - oldestEnqueueTime (scanPhase c now s).2.queue)) / 1000 := by
  have hmp' : ¬(maxPreferredOf c ≤ (scanPhase c now s).2.payloadBatchSize +
      (scanPhase c now s).2.pendingBatchSize) := not_le.mpr hmp
  have hdelay : delayOf now (scanPhase c now s).2.queue =
      now - oldestEnqueueTime (scanPhase c now s).2.queue := by
    unfold delayOf
    exact wsub64_of_le hold
  have hlt : now - oldestEnqueueTime (scanPhase c now s).2.queue ≤ c.delayNs := by
    have := delay_lt_of_not_exceeded hde hdz
    rw [hdelay] at this
    exact le_of_lt this
  simp only [getDynamicBatch, decidePhase, hbest, hsn, hcnt, hmp', hde, hdz,
    ne_eq, not_false_eq_true, not_true_eq_false, false_and, and_false,
    if_false, ite_false, false_or, or_false, reduceIte]
  rw [if_neg hshort]
  rw [hdelay, wsub64_of_le hlt]
  by_cases hct : closestTimeout (scanPhase c now s).2.queue = 0
  · simp [hct]
  · simp only [hct, ne_eq, not_false_eq_true, if_true, reduceIte]
    by_cases hfut : now ≤ closestTimeout (scanPhase c now s).2.queue
    · simp [hfut, wsub64_of_le hfut]
    · simp [hfut]

theorem c5_wait_amount_witness :
    (scanPhase cfgPlain 1000 (stFresh (List.replicate 3 (mkReq 1)))).1.best = 0 ∧
    (getDynamicBatch cfgPlain 1000 (stFresh (List.replicate 3 (mkReq 1)))).1 =
      (if closestTimeout (scanPhase cfgPlain 1000
            (stFresh (List.replicate 3 (mkReq 1)))).2.queue ≠ 0 then
        if 1000 ≤ closestTimeout (scanPhase cfgPlain 1000
              (stFresh (List.replicate 3 (mkReq 1)))).2.queue then
          min (closestTimeout (scanPhase cfgPlain 1000
                (stFresh (List.replicate 3 (mkReq 1)))).2.queue - 1000)
            (cfgPlain.delayNs - (1000 - oldestEnqueueTime (scanPhase cfgPlain 1000
                (stFresh (List.replicate 3 (mkReq 1)))).2.queue))
        else 1000
      else
        cfgPlain.delayNs - (1000 - oldestEnqueueTime (scanPhase cfgPlain 1000
            (stFresh (List.replicate 3 (mkReq 1)))).2.queue)) / 1000 :=
  ⟨by decide,
    c5_wait_amount cfgPlain 1000 (stFresh (List.replicate 3 (mkReq 1)))
      (by decide) (by decide) (by decide) (by decide) (by decide) (by decide)
      (by decide) (by decide)⟩

/-!  ## C7: the next preferred batch size hint  -/

/-- C7: on the wait path, `next_preferred_batch_size_` is set from the
smallest preferred size strictly greater than
`pending_batch_size_ + payload_batch_size_`; if none exists it falls back
to the smallest preferred size, or to 0 when the preferred set is empty;
and whenever the chosen value is non-zero, `payload_batch_size` is
subtracted from it (64-bit unsigned subtraction). -/
theorem c7_next_preferred (c : Config) (now : Nat) (s : SchedState)
    (hbest : (scanPhase c now s).1.best = 0)
    (hsn : (scanPhase c now s).1.sendNow = false)
    (hcnt : (scanPhase c now s).2.queue.scanned ≠ 0)
    (hmp : (scanPhase c now s).2.payloadBatchSize +
        (scanPhase c now s).2.pendingBatchSize < maxPreferredOf c)
    (hde : ¬delayIsExceeded c now (scanPhase c now s).2.queue)
    (hdz : c.delayNs ≠ 0)
    (hsort : c.preferred.Sorted (· < ·)) :
    (∃ m, m ∈ c.preferred ∧
      (scanPhase c now s).2.pendingBatchSize +
          (scanPhase c now s).2.payloadBatchSize < m ∧
      (∀ p ∈ c.preferred,
        (scanPhase c now s).2.pendingBatchSize +
            (scanPhase c now s).2.payloadBatchSize < p → m ≤ p) ∧
      (getDynamicBatch c now s).2.nextPreferredBatchSize =
        m - (scanPhase c now s).2.payloadBatchSize) ∨
    ((∀ p ∈ c.preferred,
        p ≤ (scanPhase c now s).2.pendingBatchSize +
          (scanPhase c now s).2.payloadBatchSize) ∧
      c.preferred ≠ [] ∧
      (∃ m, m ∈ c.preferred ∧ (∀ p ∈ c.preferred, m ≤ p) ∧
        (getDynamicBatch c now s).2.nextPreferredBatchSize =
          (if m = 0 then 0
            else wsub64 m (scanPhase c now s).2.payloadBatchSize))) ∨
    (c.preferred = [] ∧
      (getDynamicBatch c now s).2.nextPreferredBatchSize = 0) := by
  have hmp' : ¬(maxPreferredOf c ≤ (scanPhase c now s).2.payloadBatchSize +
      (scanPhase c now s).2.pendingBatchSize) := not_le.mpr hmp
  have hv : (getDynamicBatch c now s).2.nextPreferredBatchSize =
      (let np :=
        match upperBound c.preferred ((scanPhase c now s).2.pendingBatchSize +
            (scanPhase c now s).2.payloadBatchSize) with
        | some v => v
        | none =>
          match c.preferred with
          | [] => 0
          | p :: _ => p
      if np ≠ 0 then wsub64 np (scanPhase c now s).2.payloadBatchSize
      else np) := by
    simp only [getDynamicBatch, decidePhase, hbest, hsn, hcnt, hmp', hde, hdz,
      ne_eq, not_false_eq_true, not_true_eq_false, Bool.false_eq_true,
      false_and, and_false, if_false, ite_false, false_or, or_false, reduceIte]
    split <;> rfl
  rcases hub : upperBound c.preferred ((scanPhase c now s).2.pendingBatchSize +
      (scanPhase c now s).2.payloadBatchSize) with _ | m
  · -- no preferred size is strictly greater: fallback
    have hall := upperBound_none hub
    cases hp : c.preferred with
    | nil =>
      refine Or.inr (Or.inr ⟨rfl, ?_⟩)
      rw [hv, hub, hp]
      simp
    | cons a tl =>
      have hsort2 : (a :: tl).Sorted (· < ·) := by rw [← hp]; exact hsort
      refine Or.inr (Or.inl ⟨?_, by simp, ?_⟩)
      · rw [hp] at hall
        exact hall
      · refine ⟨a, List.mem_cons_self _ _, ?_, ?_⟩
        · intro p hpmem
          exact sorted_head_le hsort2 p hpmem
        · rw [hv, hub, hp]
          by_cases ha : a = 0
          · simp [ha]
          · simp [ha]
  · -- the upper bound exists
    obtain ⟨hm, hxm, hmin⟩ := upperBound_some hsort hub
    have hm0 : m ≠ 0 := by
      intro h
      rw [h] at hxm
      omega
    have hple : (scanPhase c now s).2.payloadBatchSize ≤ m := by
      have : (scanPhase c now s).2.payloadBatchSize ≤
          (scanPhase c now s).2.pendingBatchSize +
            (scanPhase c now s).2.payloadBatchSize := Nat.le_add_left _ _
      omega
    refine Or.inl ⟨m, hm, hxm, hmin, ?_⟩
    rw [hv, hub]
    simp [hm0, wsub64_of_le hple]

theorem c7_next_preferred_witness :
    (scanPhase cfgPlain 1000 (stFresh (List.replicate 3 (mkReq 1)))).1.best = 0 ∧
    ((∃ m, m ∈ cfgPlain.preferred ∧
      (scanPhase cfgPlain 1000 (stFresh (List.replicate 3 (mkReq 1)))).2.pendingBatchSize +
          (scanPhase cfgPlain 1000 (stFresh (List.replicate 3 (mkReq 1)))).2.payloadBatchSize < m ∧
      (∀ p ∈ cfgPlain.preferred,
        (scanPhase cfgPlain 1000 (stFresh (List.replicate 3 (mkReq 1)))).2.pendingBatchSize +
            (scanPhase cfgPlain 1000 (stFresh (List.replicate 3 (mkReq 1)))).2.payloadBatchSize < p → m ≤ p) ∧
      (getDynamicBatch cfgPlain 1000 (stFresh (List.replicate 3 (mkReq 1)))).2.nextPreferredBatchSize =
        m - (scanPhase cfgPlain 1000 (stFresh (List.replicate 3 (mkReq 1)))).2.payloadBatchSize) ∨
    ((∀ p ∈ cfgPlain.preferred,
        p ≤ (scanPhase cfgPlain 1000 (stFresh (List.replicate 3 (mkReq 1)))).2.pendingBatchSize +
          (scanPhase cfgPlain 1000 (stFresh (List.replicate 3 (mkReq 1)))).2.payloadBatchSize) ∧
      cfgPlain.preferred ≠ [] ∧
      (∃ m, m ∈ cfgPlain.preferred ∧ (∀ p ∈ cfgPlain.preferred, m ≤ p) ∧
        (getDynamicBatch cfgPlain 1000 (stFresh (List.replicate 3 (mkReq 1)))).2.nextPreferredBatchSize =
          (if m = 0 then 0
            else wsub64 m (scanPhase cfgPlain 1000 (stFresh (List.replicate 3 (mkReq 1)))).2.payloadBatchSize))) ∨
    (cfgPlain.preferred = [] ∧
      (getDynamicBatch cfgPlain 1000 (stFresh (List.replicate 3 (mkReq 1)))).2.nextPreferredBatchSize = 0)) :=
  ⟨by decide,
    c7_next_preferred cfgPlain 1000 (stFresh (List.replicate 3 (mkReq 1)))
      (by decide) (by decide) (by decide) (by decide) (by decide) (by decide)
      (by decide)⟩

/-!  ## Lemmas about the scan loop  -/

theorem sumEff_cons (r : Request) (l : List Request) :
    sumEff (r :: l) = effSize r + sumEff l := by
  simp [sumEff]

/-- If the scan finished without `send_now`, the cursor ended at or past
the end of the queue: every request was either accepted or rejected. -/
theorem scanLoop_noSend_length (c : Config) (pBS now : Nat) :
    ∀ (rest done : List Request) (acc : ScanAcc),
      done.length ≤ acc.count →
      (scanLoop c pBS now done rest acc).1.sendNow = false →
      (scanLoop c pBS now done rest acc).2.length ≤
        (scanLoop c pBS now done rest acc).1.count := by
  intro rest
  induction rest with
  | nil =>
    intro done acc h1 _
    simpa [scanLoop] using h1
  | cons r rs ih =>
    intro done acc h1
    simp only [scanLoop]
    by_cases hexp : expiredAt now r = true
    · rw [if_pos hexp]
      exact ih done { acc with rejectedSize := acc.rejectedSize + effSize r } h1
    · rw [if_neg hexp]
      by_cases hfirst : pBS + acc.count = 0
      · rw [if_pos hfirst]
        by_cases hinit : (checkInput c && !r.shapeInitOk) = true
        · rw [if_pos hinit]
          intro hsn
          simp at hsn
        · rw [if_neg hinit]
          by_cases hchk : checkInput c = true
          · rw [if_pos hchk]
            by_cases hcust : (c.customBatchEnabled && !r.customInclude) = true
            · rw [if_pos hcust]
              intro hsn
              simp at hsn
            · rw [if_neg hcust]
              refine ih (done ++ [r]) _ ?_
              split <;> simp <;> omega
          · rw [if_neg hchk]
            by_cases hcust : (c.customBatchEnabled && !r.customInclude) = true
            · rw [if_pos hcust]
              intro hsn
              simp at hsn
            · rw [if_neg hcust]
              refine ih (done ++ [r]) _ ?_
              split <;> simp <;> omega
      · rw [if_neg hfirst]
        by_cases hrec : pBS + acc.pending + effSize r > maxPreferredOf c ∧
            acc.best = 0
        · rw [if_pos hrec]
          dsimp only
          by_cases hmax : pBS + acc.pending + effSize r > c.maxBatchSize
          · rw [if_pos hmax]
            intro hsn
            simp at hsn
          · rw [if_neg hmax]
            by_cases hshp : (checkInput c && !hasEqualInputs acc.shape r) = true
            · rw [if_pos hshp]
              intro hsn
              simp at hsn
            · rw [if_neg hshp]
              by_cases hcust : (c.customBatchEnabled && !r.customInclude) = true
              · rw [if_pos hcust]
                intro hsn
                simp at hsn
              · rw [if_neg hcust]
                refine ih (done ++ [r]) _ ?_
                split <;> simp <;> omega
        · rw [if_neg hrec]
          by_cases hmax : pBS + acc.pending + effSize r > c.maxBatchSize
          · rw [if_pos hmax]
            intro hsn
            simp at hsn
          · rw [if_neg hmax]
            by_cases hshp : (checkInput c && !hasEqualInputs acc.shape r) = true
            · rw [if_pos hshp]
              intro hsn
              simp at hsn
            · rw [if_neg hshp]
              by_cases hcust : (c.customBatchEnabled && !r.customInclude) = true
              · rw [if_pos hcust]
                intro hsn
                simp at hsn
              · rw [if_neg hcust]
                refine ih (done ++ [r]) _ ?_
                split <;> simp <;> omega

/-- The post-scan queue always carries a valid cursor. -/
theorem scanRun_valid (c : Config) (now : Nat) (s0 : SchedState) :
    (scanRun c now s0).2.queue.valid = true := by
  simp [scanRun]

theorem scanRun_noSend_length (c : Config) (now : Nat) (s0 : SchedState)
    (hsn : (scanRun c now s0).1.sendNow = false) :
    (scanRun c now s0).2.queue.reqs.length ≤ (scanRun c now s0).2.queue.scanned := by
  simp only [scanRun] at hsn ⊢
  exact scanLoop_noSend_length c s0.payloadBatchSize now _ _ _
    (by simp [List.length_take]) hsn

/-- Scanning from a state whose cursor is already at or past the end of the
queue changes nothing: the loop body never runs. -/
theorem scanRun_at_end (c : Config) (now : Nat) (s0 : SchedState)
    (hlen : s0.queue.reqs.length ≤ s0.queue.scanned)
    (hv : s0.queue.valid = true) :
    scanRun c now s0 =
      ({ pending := s0.pendingBatchSize, count := s0.queue.scanned,
         best := 0, mark := s0.queue.mark,
         schedSaturated := s0.payloadSaturated,
         payloadMarkedSaturated := s0.payloadMarkedSaturated,
         shape := s0.payloadShape, sendNow := false, rejectedSize := 0 },
        s0) := by
  obtain ⟨⟨reqs, sc, mk, vl⟩, p, qB, np, pb, ps, pm, sh⟩ := s0
  simp only at hlen hv
  subst hv
  unfold scanRun
  dsimp only
  rw [List.drop_eq_nil_of_le hlen, List.take_of_length_le hlen]
  simp [scanLoop, wsub64]

/-- Branch facts of the decide phase when it returns a positive wait. -/
theorem decidePhase_pos_facts {c : Config} {now : Nat} {best : Nat}
    {sendNow : Bool} {s : SchedState}
    (h : 0 < (decidePhase c now best sendNow s).1) :
    best = 0 ∧ sendNow = false ∧ s.queue.scanned ≠ 0 ∧
    ¬delayIsExceeded c now s.queue ∧ c.delayNs ≠ 0 ∧
    s.payloadBatchSize + s.pendingBatchSize < maxPreferredOf c ∧
    ¬(¬s.payloadSaturated = true ∧ s.payloadBatchSize ≠ 0 ∧
        s.payloadBatchSize ∉ c.preferred) := by
  simp only [decidePhase] at h
  by_cases h1 : best ≠ 0 ∧ ¬delayIsExceeded c now s.queue
  · rw [if_pos h1] at h
    simp at h
  · rw [if_neg h1] at h
    by_cases h2 : s.queue.scanned = 0
    · rw [if_pos h2] at h
      simp at h
    · rw [if_neg h2] at h
      by_cases h3 : sendNow = true ∨
          maxPreferredOf c ≤ s.payloadBatchSize + s.pendingBatchSize
      · rw [if_pos h3] at h
        simp at h
      · rw [if_neg h3] at h
        by_cases h4 : delayIsExceeded c now s.queue ∨ c.delayNs = 0
        · rw [if_pos h4] at h
          simp at h
        · rw [if_neg h4] at h
          push_neg at h3 h4
          by_cases h5 : ¬s.payloadSaturated = true ∧ s.payloadBatchSize ≠ 0 ∧
              s.payloadBatchSize ∉ c.preferred
          · rw [if_pos h5] at h
            simp at h
          · have hb : best = 0 := by
              by_contra hbc
              exact h1 ⟨hbc, h4.1⟩
            have hsn : sendNow = false := by
              cases hsb : sendNow
              · rfl
              · exact absurd hsb h3.1
            exact ⟨hb, hsn, h2, h4.1, h4.2, h3.2, h5⟩

/-- The wait branch of the decide phase, in closed form. -/
theorem decidePhase_wait (c : Config) (now : Nat) (s : SchedState)
    (hcnt : s.queue.scanned ≠ 0)
    (hde : ¬delayIsExceeded c now s.queue)
    (hdz : c.delayNs ≠ 0)
    (hmp : s.payloadBatchSize + s.pendingBatchSize < maxPreferredOf c)
    (hshort : ¬(¬s.payloadSaturated = true ∧ s.payloadBatchSize ≠ 0 ∧
        s.payloadBatchSize ∉ c.preferred)) :
    decidePhase c now 0 false s =
      (waitValue c now s,
        { s with nextPreferredBatchSize := nextPreferredValue c s }) := by
  have hmp' : ¬(maxPreferredOf c ≤ s.payloadBatchSize + s.pendingBatchSize) :=
    not_le.mpr hmp
  simp only [decidePhase, waitValue, nextPreferredValue, hcnt, hde, hdz, hmp',
    ne_eq, not_false_eq_true, not_true_eq_false, Bool.false_eq_true,
    false_and, and_false, if_false, ite_false, false_or, or_false, reduceIte]
  rw [if_neg hshort]

/-!  ## C3: idempotence of GetDynamicBatch  -/

/-- C3 counterexample: with preferred sizes 4 and 8 and six queued size-1
requests, the first call seals at the best preferred size 4 (returns 0,
rewinding the cursor to the mark) and, with no enqueue or dequeue in
between and at the same clock reading, the second call re-scans from the
mark, finds no preferred hit, and decides to wait — a different
decision. -/
theorem c3_counterexample :
    (getDynamicBatch cfgPlain 1000 (stFresh (List.replicate 6 (mkReq 1)))).1 ≠
      (getDynamicBatch cfgPlain 1000
        (getDynamicBatch cfgPlain 1000
          (stFresh (List.replicate 6 (mkReq 1)))).2).1 := by
  decide

/-- C3 (amended): whenever the first `GetDynamicBatch` call decides to
wait (returns a positive amount), an immediate second call with no
intervening enqueue or dequeue and the same clock reading returns the
identical decision — indeed the identical wait amount and state. -/
theorem c3_wait_idempotent (c : Config) (now : Nat) (s : SchedState)
    (hw : 0 < (getDynamicBatch c now s).1) :
    getDynamicBatch c now (getDynamicBatch c now s).2 =
      getDynamicBatch c now s := by
  have hw' : 0 < (decidePhase c now (scanPhase c now s).1.best
      (scanPhase c now s).1.sendNow (scanPhase c now s).2).1 := hw
  obtain ⟨hb, hsn, hcnt, hde, hdz, hmp, hshort⟩ := decidePhase_pos_facts hw'
  have hfirst : getDynamicBatch c now s =
      (waitValue c now (scanPhase c now s).2,
        { (scanPhase c now s).2 with
            nextPreferredBatchSize :=
              nextPreferredValue c (scanPhase c now s).2 }) := by
    show decidePhase c now (scanPhase c now s).1.best
      (scanPhase c now s).1.sendNow (scanPhase c now s).2 = _
    rw [hb, hsn]
    exact decidePhase_wait c now _ hcnt hde hdz hmp hshort
  have hlen : (scanPhase c now s).2.queue.reqs.length ≤
      (scanPhase c now s).2.queue.scanned :=
    scanRun_noSend_length c now (scanStart s) hsn
  rw [hfirst]
  have hv' : ({ (scanPhase c now s).2 with
      nextPreferredBatchSize :=
        nextPreferredValue c (scanPhase c now s).2 } : SchedState).queue.valid =
      true := scanRun_valid c now (scanStart s)
  have hstart : scanStart { (scanPhase c now s).2 with
      nextPreferredBatchSize := nextPreferredValue c (scanPhase c now s).2 } =
      { (scanPhase c now s).2 with
          nextPreferredBatchSize :=
            nextPreferredValue c (scanPhase c now s).2 } := by
    unfold scanStart
    rw [if_pos hv']
  have hscan2 : scanPhase c now { (scanPhase c now s).2 with
      nextPreferredBatchSize := nextPreferredValue c (scanPhase c now s).2 } =
      ({ pending := (scanPhase c now s).2.pendingBatchSize,
         count := (scanPhase c now s).2.queue.scanned, best := 0,
         mark := (scanPhase c now s).2.queue.mark,
         schedSaturated := (scanPhase c now s).2.payloadSaturated,
         payloadMarkedSaturated := (scanPhase c now s).2.payloadMarkedSaturated,
         shape := (scanPhase c now s).2.payloadShape, sendNow := false,
         rejectedSize := 0 },
        { (scanPhase c now s).2 with
            nextPreferredBatchSize :=
              nextPreferredValue c (scanPhase c now s).2 }) := by
    show scanRun c now (scanStart _) = _
    rw [hstart]
    exact scanRun_at_end c now _ hlen hv'
  show decidePhase c now
    (scanPhase c now { (scanPhase c now s).2 with
      nextPreferredBatchSize :=
        nextPreferredValue c (scanPhase c now s).2 }).1.best
    (scanPhase c now { (scanPhase c now s).2 with
      nextPreferredBatchSize :=
        nextPreferredValue c (scanPhase c now s).2 }).1.sendNow
    (scanPhase c now { (scanPhase c now s).2 with
      nextPreferredBatchSize :=
        nextPreferredValue c (scanPhase c now s).2 }).2 = _
  rw [hscan2]
  exact decidePhase_wait c now _ hcnt hde hdz hmp hshort

theorem c3_wait_idempotent_witness :
    0 < (getDynamicBatch cfgPlain 1000
        (stFresh (List.replicate 3 (mkReq 1)))).1 ∧
      getDynamicBatch cfgPlain 1000
          (getDynamicBatch cfgPlain 1000
            (stFresh (List.replicate 3 (mkReq 1)))).2 =
        getDynamicBatch cfgPlain 1000 (stFresh (List.replicate 3 (mkReq 1))) :=
  ⟨by decide,
    c3_wait_idempotent cfgPlain 1000 (stFresh (List.replicate 3 (mkReq 1)))
      (by decide)⟩

/-!  ## C1: the max-batch-size bound  -/

theorem take_append_le {α : Type} {n : Nat} {l₁ l₂ : List α}
    (h : n ≤ l₁.length) : (l₁ ++ l₂).take n = l₁.take n := by
  rw [List.take_append_eq_append_take]
  simp [Nat.sub_eq_zero_of_le h]

/-- Scan-loop invariant: provided every request still in the queue fits in
`max_batch_size` on its own, the scanned prefix (and the recorded best
preferred batch, which is a snapshot of an earlier pending size) stays
within `max_batch_size`, and `pending_batch_size_` equals the batch size
total of the scanned prefix. -/
theorem scanLoop_bound (c : Config) (pBS now : Nat) :
    ∀ (rest done : List Request) (acc : ScanAcc),
      (∀ x ∈ rest, effSize x ≤ c.maxBatchSize) →
      done.length ≤ acc.count →
      (rest ≠ [] → acc.count = done.length) →
      acc.pending = sumEff done →
      pBS + acc.pending ≤ c.maxBatchSize →
      (acc.best ≠ 0 → acc.mark ≤ done.length ∧
        acc.best = sumEff (done.take acc.mark) ∧
        pBS + acc.best ≤ c.maxBatchSize) →
      pBS + (scanLoop c pBS now done rest acc).1.pending ≤ c.maxBatchSize ∧
      (scanLoop c pBS now done rest acc).1.pending =
        sumEff ((scanLoop c pBS now done rest acc).2.take
          (scanLoop c pBS now done rest acc).1.count) ∧
      ((scanLoop c pBS now done rest acc).1.best ≠ 0 →
        (scanLoop c pBS now done rest acc).1.best =
          sumEff ((scanLoop c pBS now done rest acc).2.take
            (scanLoop c pBS now done rest acc).1.mark) ∧
        pBS + (scanLoop c pBS now done rest acc).1.best ≤ c.maxBatchSize) := by
  intro rest
  induction rest with
  | nil =>
    intro done acc hall h1 h2 hpend hbound hbest
    simp only [scanLoop]
    refine ⟨hbound, ?_, ?_⟩
    · rw [List.take_of_length_le h1]
      exact hpend
    · intro hb
      obtain ⟨_, he, hbd⟩ := hbest hb
      exact ⟨he, hbd⟩
  | cons r rs ih =>
    intro done acc hall h1 h2 hpend hbound hbest
    have hcd : acc.count = done.length := h2 (by simp)
    have hre : sumEff (done ++ [r]) = sumEff done + effSize r := by
      simp [sumEff]
    have halltl : ∀ x ∈ rs, effSize x ≤ c.maxBatchSize :=
      fun x hx => hall x (List.mem_cons_of_mem _ hx)
    have hallr : effSize r ≤ c.maxBatchSize := hall r (List.mem_cons_self _ _)
    simp only [scanLoop]
    by_cases hexp : expiredAt now r = true
    · rw [if_pos hexp]
      exact ih done { acc with rejectedSize := acc.rejectedSize + effSize r }
        halltl h1 (fun _ => hcd) hpend hbound hbest
    · rw [if_neg hexp]
      by_cases hfirst : pBS + acc.count = 0
      · rw [if_pos hfirst]
        have hp0 : pBS = 0 := by omega
        have hd0 : done = [] := List.length_eq_zero.mp (by omega)
        have hpd0 : acc.pending = 0 := by rw [hpend, hd0]; rfl
        by_cases hinit : (checkInput c && !r.shapeInitOk) = true
        · rw [if_pos hinit]
          refine ⟨hbound, ?_, ?_⟩
          · show acc.pending = sumEff ((done ++ r :: rs).take acc.count)
            rw [hcd, take_append_le (le_refl done.length), List.take_length]
            exact hpend
          · intro hb
            obtain ⟨hm, he, hbd⟩ := hbest hb
            refine ⟨?_, hbd⟩
            show acc.best = sumEff ((done ++ r :: rs).take acc.mark)
            rw [take_append_le hm]
            exact he
        · rw [if_neg hinit]
          by_cases hchk : checkInput c = true
          · rw [if_pos hchk]
            by_cases hcust : (c.customBatchEnabled && !r.customInclude) = true
            · rw [if_pos hcust]
              refine ⟨hbound, ?_, ?_⟩
              · show acc.pending = sumEff ((done ++ r :: rs).take acc.count)
                rw [hcd, take_append_le (le_refl done.length), List.take_length]
                exact hpend
              · intro hb
                obtain ⟨hm, he, hbd⟩ := hbest hb
                refine ⟨?_, hbd⟩
                show acc.best = sumEff ((done ++ r :: rs).take acc.mark)
                rw [take_append_le hm]
                exact he
            · rw [if_neg hcust]
              refine ih (done ++ [r]) _ halltl ?_ ?_ ?_ ?_ ?_
              · split <;> simp <;> omega
              · intro _
                split <;> simp <;> omega
              · split <;> · simp only [] ; simp [hre, hpend]
              · split <;> · simp ; omega
              · split
                · intro _
                  refine ⟨by simp; omega, ?_, by simp; omega⟩
                  show acc.pending + effSize r =
                    sumEff ((done ++ [r]).take (acc.count + 1))
                  rw [List.take_of_length_le (by simp [hcd]), hre, hpend]
                · intro hb
                  obtain ⟨hm, he, hbd⟩ := hbest hb
                  refine ⟨by simp; omega, ?_, hbd⟩
                  show acc.best = sumEff ((done ++ [r]).take acc.mark)
                  rw [take_append_le hm]
                  exact he
          · rw [if_neg hchk]
            by_cases hcust : (c.customBatchEnabled && !r.customInclude) = true
            · rw [if_pos hcust]
              refine ⟨hbound, ?_, ?_⟩
              · show acc.pending = sumEff ((done ++ r :: rs).take acc.count)
                rw [hcd, take_append_le (le_refl done.length), List.take_length]
                exact hpend
              · intro hb
                obtain ⟨hm, he, hbd⟩ := hbest hb
                refine ⟨?_, hbd⟩
                show acc.best = sumEff ((done ++ r :: rs).take acc.mark)
                rw [take_append_le hm]
                exact he
            · rw [if_neg hcust]
              refine ih (done ++ [r]) _ halltl ?_ ?_ ?_ ?_ ?_
              · split <;> simp <;> omega
              · intro _
                split <;> simp <;> omega
              · split <;> · simp only [] ; simp [hre, hpend]
              · split <;> · simp ; omega
              · split
                · intro _
                  refine ⟨by simp; omega, ?_, by simp; omega⟩
                  show acc.pending + effSize r =
                    sumEff ((done ++ [r]).take (acc.count + 1))
                  rw [List.take_of_length_le (by simp [hcd]), hre, hpend]
                · intro hb
                  obtain ⟨hm, he, hbd⟩ := hbest hb
                  refine ⟨by simp; omega, ?_, hbd⟩
                  show acc.best = sumEff ((done ++ [r]).take acc.mark)
                  rw [take_append_le hm]
                  exact he
      · rw [if_neg hfirst]
        by_cases hrec : pBS + acc.pending + effSize r > maxPreferredOf c ∧
            acc.best = 0
        · rw [if_pos hrec]
          dsimp only
          by_cases hmax : pBS + acc.pending + effSize r > c.maxBatchSize
          · rw [if_pos hmax]
            refine ⟨hbound, ?_, ?_⟩
            · show acc.pending = sumEff ((done ++ r :: rs).take acc.count)
              rw [hcd, take_append_le (le_refl done.length), List.take_length]
              exact hpend
            · intro _
              refine ⟨?_, hbound⟩
              show acc.pending = sumEff ((done ++ r :: rs).take acc.count)
              rw [hcd, take_append_le (le_refl done.length), List.take_length]
              exact hpend
          · rw [if_neg hmax]
            have hba : pBS + (acc.pending + effSize r) ≤ c.maxBatchSize := by
              omega
            by_cases hshp : (checkInput c && !hasEqualInputs acc.shape r) = true
            · rw [if_pos hshp]
              refine ⟨hbound, ?_, ?_⟩
              · show acc.pending = sumEff ((done ++ r :: rs).take acc.count)
                rw [hcd, take_append_le (le_refl done.length), List.take_length]
                exact hpend
              · intro _
                refine ⟨?_, hbound⟩
                show acc.pending = sumEff ((done ++ r :: rs).take acc.count)
                rw [hcd, take_append_le (le_refl done.length), List.take_length]
                exact hpend
            · rw [if_neg hshp]
              by_cases hcust : (c.customBatchEnabled && !r.customInclude) = true
              · rw [if_pos hcust]
                refine ⟨hbound, ?_, ?_⟩
                · show acc.pending = sumEff ((done ++ r :: rs).take acc.count)
                  rw [hcd, take_append_le (le_refl done.length),
                    List.take_length]
                  exact hpend
                · intro _
                  refine ⟨?_, hbound⟩
                  show acc.pending = sumEff ((done ++ r :: rs).take acc.count)
                  rw [hcd, take_append_le (le_refl done.length),
                    List.take_length]
                  exact hpend
              · rw [if_neg hcust]
                refine ih (done ++ [r]) _ halltl ?_ ?_ ?_ ?_ ?_
                · split <;> simp <;> omega
                · intro _
                  split <;> simp <;> omega
                · split <;> · simp only [] ; simp [hre, hpend]
                · split <;> · simp ; omega
                · split
                  · intro _
                    refine ⟨by simp; omega, ?_, by simp; omega⟩
                    show acc.pending + effSize r =
                      sumEff ((done ++ [r]).take (acc.count + 1))
                    rw [List.take_of_length_le (by simp [hcd]), hre, hpend]
                  · intro _
                    refine ⟨by simp; omega, ?_, by simp; omega⟩
                    show acc.pending = sumEff ((done ++ [r]).take acc.count)
                    rw [hcd, take_append_le (le_refl done.length),
                      List.take_length]
                    exact hpend
        · rw [if_neg hrec]
          by_cases hmax : pBS + acc.pending + effSize r > c.maxBatchSize
          · rw [if_pos hmax]
            refine ⟨hbound, ?_, ?_⟩
            · show acc.pending = sumEff ((done ++ r :: rs).take acc.count)
              rw [hcd, take_append_le (le_refl done.length), List.take_length]
              exact hpend
            · intro hb
              obtain ⟨hm, he, hbd⟩ := hbest hb
              refine ⟨?_, hbd⟩
              show acc.best = sumEff ((done ++ r :: rs).take acc.mark)
              rw [take_append_le hm]
              exact he
          · rw [if_neg hmax]
            have hba : pBS + (acc.pending + effSize r) ≤ c.maxBatchSize := by
              omega
            by_cases hshp : (checkInput c && !hasEqualInputs acc.shape r) = true
            · rw [if_pos hshp]
              refine ⟨hbound, ?_, ?_⟩
              · show acc.pending = sumEff ((done ++ r :: rs).take acc.count)
                rw [hcd, take_append_le (le_refl done.length), List.take_length]
                exact hpend
              · intro hb
                obtain ⟨hm, he, hbd⟩ := hbest hb
                refine ⟨?_, hbd⟩
                show acc.best = sumEff ((done ++ r :: rs).take acc.mark)
                rw [take_append_le hm]
                exact he
            · rw [if_neg hshp]
              by_cases hcust : (c.customBatchEnabled && !r.customInclude) = true
              · rw [if_pos hcust]
                refine ⟨hbound, ?_, ?_⟩
                · show acc.pending = sumEff ((done ++ r :: rs).take acc.count)
                  rw [hcd, take_append_le (le_refl done.length),
                    List.take_length]
                  exact hpend
                · intro hb
                  obtain ⟨hm, he, hbd⟩ := hbest hb
                  refine ⟨?_, hbd⟩
                  show acc.best = sumEff ((done ++ r :: rs).take acc.mark)
                  rw [take_append_le hm]
                  exact he
              · rw [if_neg hcust]
                refine ih (done ++ [r]) _ halltl ?_ ?_ ?_ ?_ ?_
                · split <;> simp <;> omega
                · intro _
                  split <;> simp <;> omega
                · split <;> · simp only [] ; simp [hre, hpend]
                · split <;> · simp ; omega
                · split
                  · intro _
                    refine ⟨by simp; omega, ?_, by simp; omega⟩
                    show acc.pending + effSize r =
                      sumEff ((done ++ [r]).take (acc.count + 1))
                    rw [List.take_of_length_le (by simp [hcd]), hre, hpend]
                  · intro hb
                    obtain ⟨hm, he, hbd⟩ := hbest hb
                    refine ⟨by simp; omega, ?_, hbd⟩
                    show acc.best = sumEff ((done ++ [r]).take acc.mark)
                    rw [take_append_le hm]
                    exact he

theorem scanPhase_payloadBS (c : Config) (now : Nat) (s : SchedState) :
    (scanPhase c now s).2.payloadBatchSize = s.payloadBatchSize := by
  unfold scanPhase scanRun scanStart
  split <;> rfl

theorem scanPhase_bound (c : Config) (now : Nat) (s : SchedState)
    (hall : ∀ x ∈ s.queue.reqs, effSize x ≤ c.maxBatchSize)
    (hpay : s.payloadBatchSize ≤ c.maxBatchSize)
    (hv : s.queue.valid = true →
      s.pendingBatchSize = sumEff (s.queue.reqs.take s.queue.scanned) ∧
      s.payloadBatchSize + s.pendingBatchSize ≤ c.maxBatchSize) :
    s.payloadBatchSize + (scanPhase c now s).2.pendingBatchSize ≤
      c.maxBatchSize ∧
    (scanPhase c now s).2.pendingBatchSize =
      sumEff ((scanPhase c now s).2.queue.reqs.take
        (scanPhase c now s).2.queue.scanned) ∧
    ((scanPhase c now s).1.best ≠ 0 →
      (scanPhase c now s).1.best =
        sumEff ((scanPhase c now s).2.queue.reqs.take
          (scanPhase c now s).2.queue.mark) ∧
      s.payloadBatchSize + (scanPhase c now s).1.best ≤ c.maxBatchSize) := by
  unfold scanPhase
  by_cases hval : s.queue.valid = true
  · have hss : scanStart s = s := by
      unfold scanStart
      rw [if_pos hval]
    rw [hss]
    obtain ⟨hpend', hbound'⟩ := hv hval
    exact scanLoop_bound c s.payloadBatchSize now
      (s.queue.reqs.drop s.queue.scanned) (s.queue.reqs.take s.queue.scanned)
      { pending := s.pendingBatchSize, count := s.queue.scanned, best := 0,
        mark := s.queue.mark, schedSaturated := s.payloadSaturated,
        payloadMarkedSaturated := s.payloadMarkedSaturated,
        shape := s.payloadShape, sendNow := false, rejectedSize := 0 }
      (fun x hx => hall x (List.mem_of_mem_drop hx))
      (by simp [List.length_take])
      (fun hne => by
        have hlt : s.queue.scanned < s.queue.reqs.length := by
          by_contra hge
          exact hne (List.drop_eq_nil_of_le (by omega))
        simp [List.length_take]
        omega)
      hpend' hbound' (fun hb => absurd rfl hb)
  · have hss : scanStart s =
        { s with queue := { s.queue with scanned := 0, valid := true },
                 pendingBatchSize := 0 } := by
      unfold scanStart
      rw [if_neg hval]
    rw [hss]
    exact scanLoop_bound c s.payloadBatchSize now
      (s.queue.reqs.drop 0) (s.queue.reqs.take 0)
      { pending := 0, count := 0, best := 0, mark := s.queue.mark,
        schedSaturated := s.payloadSaturated,
        payloadMarkedSaturated := s.payloadMarkedSaturated,
        shape := s.payloadShape, sendNow := false, rejectedSize := 0 }
      (fun x hx => hall x (List.mem_of_mem_drop hx))
      (by simp) (fun _ => by simp) (by simp [sumEff]) (by simpa using hpay)
      (fun hb => absurd rfl hb)

/-- C1 counterexample: with `max_batch_size` 8 and an empty payload, a
single queued request of declared batch size 100 is admitted as the first
request of the batch with no size check; the scan seals immediately
(returns 0) with a pending batch of 100 > 8, so the claim as stated is
false when the first request exceeds `max_batch_size`. -/
theorem c1_counterexample :
    (getDynamicBatch cfgTight 5 (stFresh [mkReq 100])).1 = 0 ∧
    (getDynamicBatch cfgTight 5 (stFresh [mkReq 100])).2.queue.scanned ≠ 0 ∧
    ¬((getDynamicBatch cfgTight 5 (stFresh [mkReq 100])).2.payloadBatchSize +
        sumEff ((getDynamicBatch cfgTight 5
            (stFresh [mkReq 100])).2.queue.reqs.take
          (getDynamicBatch cfgTight 5 (stFresh [mkReq 100])).2.queue.scanned) ≤
      cfgTight.maxBatchSize) := by
  decide

/-- C1 (amended): provided every queued request's effective batch size
(`max(1, declared)`) is at most `max_batch_size` — the code performs no
size check on the first request of an empty batch — every batch formed by
`GetDynamicBatch` satisfies the bound: the payload size plus the batch
size total of the scanned prefix that would be dequeued into it is at most
`max_batch_size`, for every state whose cursor bookkeeping is consistent. -/
theorem c1_payload_within_max (c : Config) (now : Nat) (s : SchedState)
    (hall : ∀ x ∈ s.queue.reqs, effSize x ≤ c.maxBatchSize)
    (hpay : s.payloadBatchSize ≤ c.maxBatchSize)
    (hv : s.queue.valid = true →
      s.pendingBatchSize = sumEff (s.queue.reqs.take s.queue.scanned) ∧
      s.payloadBatchSize + s.pendingBatchSize ≤ c.maxBatchSize) :
    (getDynamicBatch c now s).2.payloadBatchSize +
      sumEff ((getDynamicBatch c now s).2.queue.reqs.take
        (getDynamicBatch c now s).2.queue.scanned) ≤ c.maxBatchSize := by
  obtain ⟨B1, B2, B3⟩ := scanPhase_bound c now s hall hpay hv
  have hpb : (scanPhase c now s).2.payloadBatchSize = s.payloadBatchSize :=
    scanPhase_payloadBS c now s
  show (decidePhase c now (scanPhase c now s).1.best
    (scanPhase c now s).1.sendNow
    (scanPhase c now s).2).2.payloadBatchSize +
      sumEff ((decidePhase c now (scanPhase c now s).1.best
        (scanPhase c now s).1.sendNow
        (scanPhase c now s).2).2.queue.reqs.take
        (decidePhase c now (scanPhase c now s).1.best
          (scanPhase c now s).1.sendNow
          (scanPhase c now s).2).2.queue.scanned) ≤ c.maxBatchSize
  simp only [decidePhase]
  split
  · rename_i h
    obtain ⟨heq, hbd⟩ := B3 h.1
    dsimp only
    rw [← heq, hpb]
    exact hbd
  · split
    · dsimp only
      rw [← B2, hpb]
      exact B1
    · split
      · dsimp only
        rw [← B2, hpb]
        exact B1
      · split
        · dsimp only
          rw [← B2, hpb]
          exact B1
        · split
          · dsimp only
            rw [← B2, hpb]
            exact B1
          · dsimp only
            rw [← B2, hpb]
            exact B1

theorem c1_payload_within_max_witness :
    (∀ x ∈ (stFresh (List.replicate 6 (mkReq 1))).queue.reqs,
      effSize x ≤ cfgPlain.maxBatchSize) ∧
    (getDynamicBatch cfgPlain 1000
        (stFresh (List.replicate 6 (mkReq 1)))).2.payloadBatchSize +
      sumEff ((getDynamicBatch cfgPlain 1000
          (stFresh (List.replicate 6 (mkReq 1)))).2.queue.reqs.take
        (getDynamicBatch cfgPlain 1000
          (stFresh (List.replicate 6 (mkReq 1)))).2.queue.scanned) ≤
      cfgPlain.maxBatchSize :=
  ⟨by decide,
    c1_payload_within_max cfgPlain 1000 (stFresh (List.replicate 6 (mkReq 1)))
      (by decide) (by decide) (by decide)⟩

end DynBatch
